import Mathlib

/-!
Verification development for the go-docx placeholder-replacement library.

Text is modelled as `List Char` (Go strings are byte/rune sequences; all
claims here involve only ASCII text, where the two views agree).  Fallible
Go functions returning `(T, error)` are modelled as `Except DocxErr T`,
with `DocxErr` an enumeration of the error sites (the claims only inspect
error-versus-ok, never the message text).

The files `process.go` and `template_process.go` of the repository are
translated directly.  The core document engine (zip open/write, run model,
scanner, rewriter: `OpenBytes`, `ReplaceAll`, `assembleFullPlaceholders`,
`GetPlaceHoldersList`) is not part of the available sources - only its
tests and callers are - so those parts are modelled from the spec, each
marked `Modelled from the spec:` in its doc comment.
-/

namespace GoDocx

/-- Error enumeration for the fallible operations of the library.  The Go
code returns wrapped error strings; the claims only distinguish error from
success, so an enumeration of the error sites is a faithful model. -/
inductive DocxErr where
  | emptyInput
  | emptyTemplate
  | incompleteConfig
  | notPackage
  | templateParseFailed
  deriving DecidableEq, Repr

instance {α β : Type} [DecidableEq α] [DecidableEq β] : DecidableEq (Except α β) := fun a b =>
  match a, b with
  | .ok x, .ok y =>
    if h : x = y then .isTrue (by rw [h]) else .isFalse (by intro hc; cases hc; exact h rfl)
  | .error x, .error y =>
    if h : x = y then .isTrue (by rw [h]) else .isFalse (by intro hc; cases hc; exact h rfl)
  | .ok _, .error _ => .isFalse (by intro hc; cases hc)
  | .error _, .ok _ => .isFalse (by intro hc; cases hc)

/-- Boolean test that a run of characters is ok as output: returns true when
the Except value is an ok result.  Used to state that an operation produced
no output together with an error. -/
def isOkE {α β : Type} : Except α β → Bool
  | .ok _ => true
  | .error _ => false

/-- Boolean test that the pattern (first argument) is a prefix of the text
(second argument).  Models the prefix comparison underlying Go's
strings.Contains. -/
def startsWithL : List Char → List Char → Bool
  | [], _ => true
  | _ :: _, [] => false
  | a :: as, b :: bs => a = b && startsWithL as bs

/-- Boolean substring test: containsSub s pat is true when pat occurs
contiguously inside s.  Models Go's strings.Contains(s, pat). -/
def containsSub : List Char → List Char → Bool
  | [], pat => startsWithL pat []
  | c :: rest, pat => startsWithL pat (c :: rest) || containsSub rest pat

/-- Occurrence proposition: pat occurs contiguously inside t. -/
def Occ (pat t : List Char) : Prop := ∃ x y, t = x ++ pat ++ y

/-- Number of positions of t at which pat starts (overlapping occurrences
counted). -/
def countSub (pat : List Char) : List Char → Nat
  | [] => if startsWithL pat [] then 1 else 0
  | c :: cs => (if startsWithL pat (c :: cs) then 1 else 0) + countSub pat cs

/-- Indices at which the character c occurs in the text, in increasing
order.  Models the position lists the Placeholder Scanner builds for the
open and close delimiters. -/
def idxs (c : Char) : List Char → List Nat
  | [] => []
  | a :: as => (if a = c then [0] else []) ++ (idxs c as).map (· + 1)

/-- Replacement of every occurrence of the single character c by the word
rep, left to right.  Models Go's strings.ReplaceAll for the one-character
patterns used by escapeRTFText. -/
def charReplace (c : Char) (rep : List Char) : List Char → List Char
  | [] => []
  | a :: as => (if a = c then rep else [a]) ++ charReplace c rep as

/-- Whitespace test matching Go's unicode.IsSpace on the ASCII characters
that occur in the claims. -/
def isSpaceC (c : Char) : Bool :=
  c = ' ' || c = '\n' || c = '\t' || c = '\r'

/-- Trim of leading and trailing whitespace; models Go's strings.TrimSpace. -/
def trimSpace (s : List Char) : List Char :=
  ((s.dropWhile isSpaceC).reverse.dropWhile isSpaceC).reverse

/-- From template_process.go, isTemplatePlaceholder: a placeholder literal
is a template placeholder exactly when it contains both the open marker
and the close marker of the template language. -/
def isTemplatePlaceholder (placeholder : List Char) : Bool :=
  containsSub placeholder ['{', '{'] && containsSub placeholder ['}', '}']

/-- From template_process.go, escapeRTFText: escapes the RTF special
characters, brace passes first, then the backslash pass, then newlines. -/
def escapeRTFText (text : List Char) : List Char :=
  let t1 := charReplace '{' ['\\', '{'] text
  let t2 := charReplace '}' ['\\', '}'] t1
  let t3 := charReplace '\\' ['\\', '\\'] t2
  charReplace '\n' ['\\', 'p', 'a', 'r', ' '] t3

mutual
/-- Node of the tree built by the external HTML parser: a text node, an
element with a tag and children, or the document root. -/
inductive HtmlNode where
  | text (s : List Char)
  | element (tag : List Char) (children : HtmlNodeList)
  | document (children : HtmlNodeList)

/-- List of HTML nodes (mutual with HtmlNode so that the recursion of
processHTMLNode is structural). -/
inductive HtmlNodeList where
  | nil
  | cons (n : HtmlNode) (ns : HtmlNodeList)
end

mutual
/-- From template_process.go, processHTMLNode: recursively converts an HTML
node to RTF markup.  Text nodes are trimmed and escaped; br, b, strong, i,
em, p and div get RTF formatting; all other nodes contribute only their
children. -/
def processHTMLNode : HtmlNode → List Char
  | .text s =>
    let t := trimSpace s
    if t = [] then [] else escapeRTFText t
  | .element tag cs =>
    let lo := tag.map Char.toLower
    if lo = ['b', 'r'] then ['\\', 'p', 'a', 'r', ' ']
    else if lo = ['b'] || lo = ['s', 't', 'r', 'o', 'n', 'g'] then
      ['{', '\\', 'b', ' '] ++ processHTMLNodeList cs ++ ['}']
    else if lo = ['i'] || lo = ['e', 'm'] then
      ['{', '\\', 'i', ' '] ++ processHTMLNodeList cs ++ ['}']
    else if lo = ['p'] then
      ['\\', 'p', 'a', 'r', ' '] ++ processHTMLNodeList cs ++ ['\\', 'p', 'a', 'r', ' ']
    else if lo = ['d', 'i', 'v'] then
      ['\\', 'p', 'a', 'r', ' '] ++ processHTMLNodeList cs
    else processHTMLNodeList cs
  | .document cs => processHTMLNodeList cs

/-- Sequential processing of a list of sibling HTML nodes, appending their
RTF output in order (the for-loop over children in processHTMLNode). -/
def processHTMLNodeList : HtmlNodeList → List Char
  | .nil => []
  | .cons n ns => processHTMLNode n ++ processHTMLNodeList ns
end

/-- Modelled from the spec: the external HTML tree parser (an out-of-scope
collaborator per the spec).  For markup-free input - the only inputs the
claims exercise - it produces a document whose html element holds an empty
head and a body with the input as a single text node. -/
def htmlParse (s : List Char) : HtmlNode :=
  .document (.cons
    (.element ['h', 't', 'm', 'l'] (.cons
      (.element ['h', 'e', 'a', 'd'] .nil) (.cons
      (.element ['b', 'o', 'd', 'y'] (.cons (.text s) .nil)) .nil)))
    .nil)

/-- The fixed RTF document header written by convertHTMLToRTF. -/
def rtfHeader : List Char :=
  ['{', '\\', 'r', 't', 'f', '1', '\\', 'a', 'n', 's', 'i', '\\', 'd', 'e', 'f', 'f', '0',
   ' ', '{', '\\', 'f', 'o', 'n', 't', 't', 'b', 'l', ' ', '{', '\\', 'f', '0', ' ',
   'T', 'i', 'm', 'e', 's', ' ', 'N', 'e', 'w', ' ', 'R', 'o', 'm', 'a', 'n', ';', '}', '}']

/-- From template_process.go, convertHTMLToRTF: parses the HTML content,
writes the RTF header, processes the node tree and closes the RTF group. -/
def convertHTMLToRTF (htmlContent : List Char) : List Char :=
  rtfHeader ++ processHTMLNode (htmlParse htmlContent) ++ ['}']

/-- Piece of a parsed template: a run of literal text or a field action. -/
inductive TPart where
  | lit (s : List Char)
  | field (name : List Char)
  deriving DecidableEq, Repr

/-- A template evaluation context: a read-only lookup from field name to
the field's textual value, none when the field is absent. -/
def Ctx : Type := List Char → Option (List Char)

/-- The sentinel the evaluator prints for a reference to an absent field
in its default mode (evidenced by nested_placeholder_test.go). -/
def noValueMarker : List Char := ['<', 'n', 'o', ' ', 'v', 'a', 'l', 'u', 'e', '>']

/-- Modelled from the spec: the parser of the external template evaluator
(text/template), restricted to the forms the claims exercise - literal
text and field actions of the shape open marker, dot, name, close marker.
Any other action form is a parse error.  Fuel is the input length. -/
def parseTemplateAux : Nat → List Char → Option (List TPart)
  | 0, _ => none
  | _ + 1, [] => some []
  | fuel + 1, '{' :: '{' :: rest =>
    match rest with
    | '.' :: r2 =>
      let name := r2.takeWhile (fun c => c ≠ '}')
      match r2.dropWhile (fun c => c ≠ '}') with
      | '}' :: '}' :: r3 => (parseTemplateAux fuel r3).map (fun l => .field name :: l)
      | _ => none
    | _ => none
  | fuel + 1, c :: rest => (parseTemplateAux fuel rest).map (fun l => .lit [c] :: l)

/-- Parse of a template source text (fuel instantiated to the length). -/
def parseTemplate (t : List Char) : Option (List TPart) :=
  parseTemplateAux (t.length + 1) t

/-- Modelled from the spec: execution of a parsed template against a
context in the evaluator's default mode - literals are copied, a present
field prints its value and an absent field prints the missing-value
sentinel, never an error. -/
def renderTemplate (ctx : Ctx) (tpl : List TPart) : List Char :=
  (tpl.map (fun p =>
    match p with
    | .lit s => s
    | .field n => (ctx n).getD noValueMarker)).flatten

/-- From template_process.go, executeTemplatePlaceholder: parses the
placeholder text as a template and executes it with the data, returning
the raw evaluator output (no screening of the result). -/
def executeTemplatePlaceholderM (templateText : List Char) (ctx : Ctx) :
    Except DocxErr (List Char) :=
  match parseTemplate templateText with
  | none => .error .templateParseFailed
  | some tpl => .ok (renderTemplate ctx tpl)

/-- From template_process.go, ProcessTemplate: rejects empty template
text, parses and executes the template, then converts the output to RTF. -/
def ProcessTemplateM (templateText : List Char) (ctx : Ctx) : Except DocxErr (List Char) :=
  if templateText = [] then .error .emptyTemplate
  else
    match parseTemplate templateText with
    | none => .error .templateParseFailed
    | some tpl => .ok (convertHTMLToRTF (renderTemplate ctx tpl))

/-- Modelled from the spec: a segment of a well-formed Part's assembled
text - either a run of literal text free of structural delimiters, or one
placeholder holding its delimiter-stripped key. -/
inductive Seg where
  | plain (s : List Char)
  | ph (key : List Char)
  deriving DecidableEq, Repr

/-- A list of characters free of the structural delimiter characters. -/
def braceFree (s : List Char) : Prop := ('{' ∉ s) ∧ ('}' ∉ s)

instance (s : List Char) : Decidable (braceFree s) := by
  unfold braceFree; infer_instance

/-- Well-formedness of one segment: its text or key is delimiter-free. -/
def wfSeg : Seg → Prop
  | .plain s => braceFree s
  | .ph k => braceFree k

instance (sg : Seg) : Decidable (wfSeg sg) := by
  cases sg <;> (unfold wfSeg; infer_instance)

/-- The text a segment contributes to the assembled Part text: a literal
segment contributes itself, a placeholder its delimited literal. -/
def flattenSeg : Seg → List Char
  | .plain s => s
  | .ph k => '{' :: (k ++ ['}'])

/-- Assembled text of a whole segment decomposition. -/
def flattenSegs (segs : List Seg) : List Char :=
  (segs.map flattenSeg).flatten

/-- A replacement map: lookup from delimiter-stripped placeholder key to
replacement text, none when the key is absent.  Models PlaceholderMap. -/
def PlaceholderMapM : Type := List Char → Option (List Char)

/-- Modelled from the spec: the Template Integration Layer's resolution of
one plain placeholder - a direct map lookup on the key; a missing key
leaves the original delimited text unchanged, never an error. -/
def resolveKey (m : PlaceholderMapM) (k : List Char) : List Char :=
  match m k with
  | some v => v
  | none => '{' :: (k ++ ['}'])

/-- Resolution of a segment: literal segments are untouched; a placeholder
whose key is in the map becomes its replacement text, one whose key is
absent stays a placeholder. -/
def resolveSeg (m : PlaceholderMapM) : Seg → Seg
  | .plain s => .plain s
  | .ph k =>
    match m k with
    | some v => .plain v
    | none => .ph k

/-- Modelled from the spec: the Placeholder Scanner - the ordered open and
close delimiter position lists of the assembled text, paired positionally;
zip truncates to the shorter list, silently dropping unmatched markers. -/
def scanSpans (t : List Char) : List (Nat × Nat) :=
  (idxs '{' t).zip (idxs '}' t)

/-- Modelled from the spec: the Placeholder Rewriter's effect of one span
rewrite on the assembled text - the key between the delimiters is read,
resolved against the map, and the delimited region is spliced out in
favour of the final text. -/
def stepSpan (m : PlaceholderMapM) (oc : Nat × Nat) (acc : List Char) : List Char :=
  let key := (acc.drop (oc.1 + 1)).take (oc.2 - oc.1 - 1)
  acc.take oc.1 ++ resolveKey m key ++ acc.drop (oc.2 + 1)

/-- Modelled from the spec: ReplaceAll on a single Part's assembled text -
all spans produced by one scan are rewritten in a single pass ordered by
descending start offset (the right-to-left ordering keeps the offsets of
the spans not yet processed stable). -/
def replaceAllText (m : PlaceholderMapM) (t : List Char) : List Char :=
  (scanSpans t).foldr (stepSpan m) t

/-- Modelled from the spec: OpenBytes - empty input is rejected, the
container magic is verified, and the single Part's assembled text is the
remainder of the package bytes. -/
def openBytes (input : List Char) : Except DocxErr (List Char) :=
  if input = [] then .error .emptyInput
  else if input.take 2 = ['P', 'K'] then .ok (input.drop 2)
  else .error .notPackage

/-- Serialization of the document model back to package bytes (the Write
step): the container magic followed by the Part text. -/
def writeBytes (t : List Char) : List Char := 'P' :: 'K' :: t

/-- From process.go, ProcessBytes: opens the document from bytes, applies
ReplaceAll with the replacement map, and writes the result to bytes. -/
def ProcessBytesM (input : List Char) (m : PlaceholderMapM) : Except DocxErr (List Char) :=
  match openBytes input with
  | .error e => .error e
  | .ok t => .ok (writeBytes (replaceAllText m t))

/-- The single-entry replacement map built by ProcessTemplateBytes. -/
def singleMap (key v : List Char) : PlaceholderMapM :=
  fun k => if k = key then some v else none

/-- From template_process.go, ProcessTemplateBytes: rejects empty input
bytes, then incomplete configuration (empty placeholder key or empty
template text), then renders the template and performs a plain replacement
of the single target key with the rendered text. -/
def ProcessTemplateBytesM (input : List Char) (key templateText : List Char) (ctx : Ctx) :
    Except DocxErr (List Char) :=
  if input = [] then .error .emptyInput
  else if key = [] || templateText = [] then .error .incompleteConfig
  else
    match ProcessTemplateM templateText ctx with
    | .error e => .error e
    | .ok rtf => ProcessBytesM input (singleMap key rtf)

/-- Helper of the placeholder discovery scan: splits the text at the first
close-marker pair, returning the text before it and the text after it. -/
def splitAtCloseMarker : List Char → Option (List Char × List Char)
  | [] => none
  | '}' :: '}' :: rest => some ([], rest)
  | c :: rest => (splitAtCloseMarker rest).map (fun p => (c :: p.1, p.2))

/-- Modelled from the spec: GetPlaceHoldersList restricted to the
template-marker placeholders that survive the downstream filter of
findAllTemplatePlaceholders - each maximal open-marker-to-close-marker
region of the Part text is returned as one placeholder literal.  Fuel is
the text length. -/
def findTemplatePlaceholdersAux : Nat → List Char → List (List Char)
  | 0, _ => []
  | _ + 1, [] => []
  | fuel + 1, '{' :: '{' :: rest =>
    match splitAtCloseMarker rest with
    | some (before, after) =>
      ('{' :: '{' :: (before ++ ['}', '}'])) :: findTemplatePlaceholdersAux fuel after
    | none => []
  | fuel + 1, _ :: rest => findTemplatePlaceholdersAux fuel rest

/-- Placeholder discovery over a Part text (fuel instantiated). -/
def getPlaceHoldersListM (t : List Char) : List (List Char) :=
  findTemplatePlaceholdersAux (t.length + 1) t

/-- The loop body of ProcessTemplateDocx: executes each discovered
template placeholder with the data, failing the whole operation on the
first placeholder whose parse or execution errors, and otherwise
collecting the placeholder-to-output replacement pairs. -/
def buildReps (ctx : Ctx) : List (List Char) → Except DocxErr (List (List Char × List Char))
  | [] => .ok []
  | p :: ps =>
    match executeTemplatePlaceholderM p ctx with
    | .error e => .error e
    | .ok v =>
      match buildReps ctx ps with
      | .error e => .error e
      | .ok rest => .ok ((p, v) :: rest)

/-- Replacement of every occurrence of a literal pattern by a replacement
word, left to right; fuel is the text length. -/
def replaceSubAllAux : Nat → List Char → List Char → List Char → List Char
  | 0, t, _, _ => t
  | _ + 1, [], _, _ => []
  | fuel + 1, c :: cs, pat, rep =>
    if pat ≠ [] && startsWithL pat (c :: cs) then
      rep ++ replaceSubAllAux fuel ((c :: cs).drop pat.length) pat rep
    else c :: replaceSubAllAux fuel cs pat rep

/-- Literal substring replacement (fuel instantiated). -/
def replaceSubAll (t pat rep : List Char) : List Char :=
  replaceSubAllAux t.length t pat rep

/-- Application of the collected template replacements onto the Part text
(the ReplaceAll call of ProcessTemplateDocx, at assembled-text level):
each discovered literal is replaced by its processed text. -/
def applyReps (reps : List (List Char × List Char)) (t : List Char) : List Char :=
  reps.foldl (fun acc kv => replaceSubAll acc kv.1 kv.2) t

/-- From template_process.go, ProcessTemplateDocx: rejects empty input,
opens the document, discovers all template-syntax placeholders, executes
each against the data - any failure aborts the whole call with an error
and no output - then applies all replacements and writes the result. -/
def ProcessTemplateDocxM (input : List Char) (ctx : Ctx) : Except DocxErr (List Char) :=
  if input = [] then .error .emptyInput
  else
    match openBytes input with
    | .error e => .error e
    | .ok t =>
      match buildReps ctx ((getPlaceHoldersListM t).filter isTemplatePlaceholder) with
      | .error e => .error e
      | .ok reps => .ok (writeBytes (applyReps reps t))

/-- The run model: the scanner test constructs a run carrying only its
identifier, so only the identifier is modelled. -/
structure RunM where
  ID : Nat
  deriving DecidableEq, Repr

/-- Modelled from the spec: assembleFullPlaceholders - given one run and
the open and close delimiter position lists, the i-th open position is
paired with the i-th close position; only the first min of the two lengths
pairs are formed and the unmatched remainder is silently dropped. -/
def assembleFullPlaceholders (_ : RunM) (openPos closePos : List Nat) : List (Nat × Nat) :=
  openPos.zip closePos

/-- A segment of the rewritten text that cannot host an occurrence of the
delimited literal of the key k: a delimiter-free literal segment, or an
unresolved placeholder with a different delimiter-free key. -/
def goodSeg (k : List Char) : Seg → Prop
  | .plain s => braceFree s
  | .ph k2 => braceFree k2 ∧ k2 ≠ k

/-- The template text of the standalone-API scenario: Hello, open markers,
dot, Name, close markers, exclamation mark. -/
def helloTemplateText : List Char :=
  ['H', 'e', 'l', 'l', 'o', ' ', '{', '{', '.', 'N', 'a', 'm', 'e', '}', '}', '!']

/-- The context binding Name to World and nothing else. -/
def worldCtx : Ctx :=
  fun n => if n = ['N', 'a', 'm', 'e'] then some ['W', 'o', 'r', 'l', 'd'] else none

/-- The raw rendering of the scenario template under worldCtx. -/
def helloWorldText : List Char :=
  ['H', 'e', 'l', 'l', 'o', ' ', 'W', 'o', 'r', 'l', 'd', '!']

/-- The template literal of the repository's own missing-data test:
Hello, a MissingField reference, comma, order number sign, an
ExistingField reference. -/
def missingFieldTemplate : List Char :=
  ['H', 'e', 'l', 'l', 'o', ' ', '{', '{', '.', 'M', 'i', 's', 's', 'i', 'n', 'g',
   'F', 'i', 'e', 'l', 'd', '}', '}', ',', ' ', 'o', 'r', 'd', 'e', 'r', ' ', '#',
   '{', '{', '.', 'E', 'x', 'i', 's', 't', 'i', 'n', 'g', 'F', 'i', 'e', 'l', 'd', '}', '}']

/-- The context of that test: ExistingField is bound, MissingField is not. -/
def missingFieldCtx : Ctx :=
  fun n =>
    if n = ['E', 'x', 'i', 's', 't', 'i', 'n', 'g', 'F', 'i', 'e', 'l', 'd']
    then some ['1', '2', '3', '4', '5'] else none

/-- What the code actually produces for that template and context. -/
def missingFieldActual : List Char :=
  ['H', 'e', 'l', 'l', 'o', ' '] ++ noValueMarker
    ++ [',', ' ', 'o', 'r', 'd', 'e', 'r', ' ', '#', '1', '2', '3', '4', '5']

/-! Lemmas about the string utilities. -/

theorem startsWithL_iff : ∀ (pat s : List Char), startsWithL pat s = true ↔ ∃ r, s = pat ++ r
  | [], s => by simp [startsWithL]
  | a :: as, [] => by simp [startsWithL]
  | a :: as, b :: bs => by
    simp only [startsWithL, Bool.and_eq_true, decide_eq_true_eq, List.cons_append]
    constructor
    · rintro ⟨rfl, h⟩
      obtain ⟨r, rfl⟩ := (startsWithL_iff as bs).1 h
      exact ⟨r, rfl⟩
    · rintro ⟨r, hr⟩
      injection hr with h1 h2
      exact ⟨h1.symm, (startsWithL_iff as bs).2 ⟨r, h2⟩⟩

theorem containsSub_iff : ∀ (s pat : List Char), containsSub s pat = true ↔ Occ pat s
  | [], pat => by
    simp only [containsSub, startsWithL_iff, Occ]
    constructor
    · rintro ⟨r, hr⟩
      exact ⟨[], r, by simpa using hr⟩
    · rintro ⟨x, y, hxy⟩
      obtain ⟨hx, hp, hy⟩ : x = [] ∧ pat = [] ∧ y = [] := by
        simpa [List.append_eq_nil] using hxy.symm
      exact ⟨y, by simp [hp, hy]⟩
  | c :: rest, pat => by
    simp only [containsSub, Bool.or_eq_true]
    rw [startsWithL_iff, containsSub_iff rest pat]
    constructor
    · rintro (⟨r, hr⟩ | ⟨x, y, hxy⟩)
      · exact ⟨[], r, by simpa using hr⟩
      · exact ⟨c :: x, y, by simp [hxy]⟩
    · rintro ⟨x, y, hxy⟩
      cases x with
      | nil => exact .inl ⟨y, by simpa using hxy⟩
      | cons d xs =>
        rw [List.cons_append] at hxy
        injection hxy with h1 h2
        exact .inr ⟨xs, y, h2⟩

theorem count_charReplace (c : Char) (rep : List Char) (d : Char) :
    ∀ t : List Char, (charReplace c rep t).count d =
      (if d = c then 0 else t.count d) + rep.count d * t.count c
  | [] => by simp [charReplace]
  | a :: as => by
    have ih := count_charReplace c rep d as
    simp only [charReplace, List.count_append, List.count_cons, ih]
    by_cases hac : a = c <;> by_cases had : a = d <;> by_cases hdc : d = c <;>
      simp_all [Nat.mul_succ, List.count_cons, List.count_nil] <;> ring

theorem zipGet {α β : Type} : ∀ (l₁ : List α) (l₂ : List β) (i : Nat),
    (l₁.zip l₂).get? i = (l₁.get? i).bind fun a => (l₂.get? i).map fun b => (a, b)
  | [], _, _ => by simp [List.zip]
  | _ :: _, [], _ => by simp [List.zip]
  | a :: as, b :: bs, 0 => by simp [List.zip]
  | a :: as, b :: bs, i + 1 => by simpa [List.zip] using zipGet as bs i

/-! Claim theorems for the scanner, the template-marker test and the RTF
escaping. -/

/-- C7: the template-integration layer classifies a literal s as a
template placeholder exactly when s contains both the open marker pair
and the close marker pair; a literal containing only one of the two, or
neither, is classified plain. -/
theorem c7_template_marker_iff (s : List Char) :
    isTemplatePlaceholder s = true ↔ (Occ ['{', '{'] s ∧ Occ ['}', '}'] s) := by
  simp only [isTemplatePlaceholder, Bool.and_eq_true, containsSub_iff]

/-- C2: for every run and all open and close position lists, the scanner
produces exactly min of the two lengths spans, pairing the i-th open with
the i-th close and silently dropping the unmatched remainder; in
particular opens at 0, 10, 20 with closes at 8, 18 yield exactly the spans
(0, 8) and (10, 18). -/
theorem c2_scanner_min_pairing (r : RunM) (openPos closePos : List Nat) :
    (assembleFullPlaceholders r openPos closePos).length =
        min openPos.length closePos.length
    ∧ (∀ i, (assembleFullPlaceholders r openPos closePos).get? i =
        (openPos.get? i).bind fun o => (closePos.get? i).map fun c => (o, c))
    ∧ assembleFullPlaceholders ⟨1⟩ [0, 10, 20] [8, 18] = [(0, 8), (10, 18)] := by
  refine ⟨List.length_zip openPos closePos, fun i => zipGet openPos closePos i, by decide⟩

/-- C10: escapeRTFText applies the brace substitutions before the
backslash substitution, so the escape backslash introduced for a brace is
itself doubled: the one-character input of an open brace yields exactly
backslash, backslash, open brace, and in general every backslash of the
input (and every brace escape) accounts for two backslashes of the output,
while each newline contributes the single backslash of its par control
word. -/
theorem c10_escape_order :
    escapeRTFText ['{'] = ['\\', '\\', '{']
    ∧ ∀ t : List Char, (escapeRTFText t).count '\\' =
        2 * (t.count '\\' + t.count '{' + t.count '}') + t.count '\n' := by
  constructor
  · decide
  · intro t
    simp only [escapeRTFText]
    have r1 : List.count '\\' ['\\', '{'] = 1 := by decide
    have r2 : List.count '}' ['\\', '{'] = 0 := by decide
    have r3 : List.count '\n' ['\\', '{'] = 0 := by decide
    have r4 : List.count '\\' ['\\', '}'] = 1 := by decide
    have r5 : List.count '\n' ['\\', '}'] = 0 := by decide
    have r6 : List.count '\\' ['\\', '\\'] = 2 := by decide
    have r7 : List.count '\n' ['\\', '\\'] = 0 := by decide
    have r8 : List.count '\\' ['\\', 'p', 'a', 'r', ' '] = 1 := by decide
    have k1 : (charReplace '{' ['\\', '{'] t).count '\\' = t.count '\\' + t.count '{' := by
      rw [count_charReplace, if_neg (by decide : ('\\' : Char) ≠ '{'), r1, one_mul]
    have k2 : (charReplace '{' ['\\', '{'] t).count '}' = t.count '}' := by
      rw [count_charReplace, if_neg (by decide : ('}' : Char) ≠ '{'), r2, zero_mul, add_zero]
    have k3 : (charReplace '{' ['\\', '{'] t).count '\n' = t.count '\n' := by
      rw [count_charReplace, if_neg (by decide : ('\n' : Char) ≠ '{'), r3, zero_mul, add_zero]
    have k4 : ∀ u : List Char, (charReplace '}' ['\\', '}'] u).count '\\' =
        u.count '\\' + u.count '}' := fun u => by
      rw [count_charReplace, if_neg (by decide : ('\\' : Char) ≠ '}'), r4, one_mul]
    have k5 : ∀ u : List Char, (charReplace '}' ['\\', '}'] u).count '\n' = u.count '\n' :=
      fun u => by
      rw [count_charReplace, if_neg (by decide : ('\n' : Char) ≠ '}'), r5, zero_mul, add_zero]
    have k6 : ∀ u : List Char, (charReplace '\\' ['\\', '\\'] u).count '\\' =
        2 * u.count '\\' := fun u => by
      rw [count_charReplace, if_pos rfl, r6, zero_add]
    have k7 : ∀ u : List Char, (charReplace '\\' ['\\', '\\'] u).count '\n' = u.count '\n' :=
      fun u => by
      rw [count_charReplace, if_neg (by decide : ('\n' : Char) ≠ '\\'), r7, zero_mul, add_zero]
    have k8 : ∀ u : List Char, (charReplace '\n' ['\\', 'p', 'a', 'r', ' '] u).count '\\' =
        u.count '\\' + u.count '\n' := fun u => by
      rw [count_charReplace, if_neg (by decide : ('\\' : Char) ≠ '\n'), r8, one_mul]
    rw [k8, k6, k7, k4, k5, k1, k2, k3]

/-! The scanner-and-rewriter correspondence: on a well-formed Part text,
one ReplaceAll pass resolves exactly the placeholder segments. -/

theorem idxs_append (c : Char) : ∀ xs ys : List Char,
    idxs c (xs ++ ys) = idxs c xs ++ (idxs c ys).map (· + xs.length)
  | [], ys => by simp [idxs]
  | a :: as, ys => by
    have hc : ((fun x => x + 1) ∘ fun x => x + as.length) = fun x => x + (as.length + 1) := by
      funext x; simp; omega
    simp only [List.cons_append, idxs, List.append_eq, idxs_append c as ys, List.map_append,
      List.map_map, List.append_assoc, List.length_cons, hc]

theorem idxs_eq_nil (c : Char) : ∀ s : List Char, c ∉ s → idxs c s = []
  | [], _ => rfl
  | a :: as, h => by
    have h1 : ¬(c = a) := fun hc => h (by simp [hc])
    have h2 : c ∉ as := fun hc => h (by simp [hc])
    have h3 : ¬(a = c) := fun hac => h1 hac.symm
    simp [idxs, h3, idxs_eq_nil c as h2]

theorem stepSpan_shift (m : PlaceholderMapM) (s X : List Char) (o c : Nat) :
    stepSpan m (o + s.length, c + s.length) (s ++ X) = s ++ stepSpan m (o, c) X := by
  simp only [stepSpan]
  have e1 : o + s.length + 1 = s.length + (o + 1) := by omega
  have e2 : c + s.length - (o + s.length) - 1 = c - o - 1 := by omega
  have e3 : o + s.length = s.length + o := by omega
  have e4 : c + s.length + 1 = s.length + (c + 1) := by omega
  rw [e1, e2, e3, e4, List.drop_append, List.take_append, List.drop_append]
  simp [List.append_assoc]

theorem foldr_stepSpan_shift (m : PlaceholderMapM) (s : List Char) :
    ∀ (spans : List (Nat × Nat)) (X : List Char),
    (spans.map (fun p => (p.1 + s.length, p.2 + s.length))).foldr (stepSpan m) (s ++ X)
      = s ++ spans.foldr (stepSpan m) X
  | [], _ => rfl
  | p :: ps, X => by
    simp only [List.map_cons, List.foldr_cons, foldr_stepSpan_shift m s ps X]
    exact stepSpan_shift m s _ p.1 p.2

theorem flattenSegs_cons (sg : Seg) (rest : List Seg) :
    flattenSegs (sg :: rest) = flattenSeg sg ++ flattenSegs rest := by
  simp [flattenSegs]

theorem flattenSegs_append (a b : List Seg) :
    flattenSegs (a ++ b) = flattenSegs a ++ flattenSegs b := by
  simp [flattenSegs]

theorem prodMap_eq_shift (n : Nat) :
    Prod.map (· + n) (· + n) = fun p : Nat × Nat => (p.1 + n, p.2 + n) := by
  funext p; cases p; rfl

theorem replaceAll_flatten (m : PlaceholderMapM) : ∀ segs : List Seg,
    (∀ sg ∈ segs, wfSeg sg) →
    replaceAllText m (flattenSegs segs) = flattenSegs (segs.map (resolveSeg m))
  | [], _ => rfl
  | .plain s :: rest, h => by
    have hs : braceFree s := h _ (List.mem_cons_self _ _)
    have ih := replaceAll_flatten m rest (fun sg hsg => h sg (List.mem_cons_of_mem _ hsg))
    rw [flattenSegs_cons]
    show replaceAllText m (s ++ flattenSegs rest) = _
    simp only [replaceAllText, scanSpans]
    rw [idxs_append, idxs_append, idxs_eq_nil '{' s hs.1, idxs_eq_nil '}' s hs.2,
      List.nil_append, List.nil_append, List.zip_map, prodMap_eq_shift,
      foldr_stepSpan_shift m s _ (flattenSegs rest)]
    simp only [replaceAllText, scanSpans] at ih
    rw [ih, List.map_cons, flattenSegs_cons]
    simp [resolveSeg, flattenSeg]
  | .ph k :: rest, h => by
    have hk : braceFree k := h _ (List.mem_cons_self _ _)
    have ih := replaceAll_flatten m rest (fun sg hsg => h sg (List.mem_cons_of_mem _ hsg))
    rw [flattenSegs_cons]
    show replaceAllText m (('{' :: (k ++ ['}'])) ++ flattenSegs rest) = _
    have hko : idxs '{' (k ++ ['}']) = [] := by
      rw [idxs_append, idxs_eq_nil '{' k hk.1]
      have : idxs '{' ['}'] = [] := by decide
      simp [this]
    have hkc : idxs '}' (k ++ ['}']) = [k.length] := by
      rw [idxs_append, idxs_eq_nil '}' k hk.2]
      have : idxs '}' ['}'] = [0] := by decide
      simp [this]
    have hopen : idxs '{' ('{' :: (k ++ ['}'])) = [0] := by
      simp [idxs, hko]
    have hclose : idxs '}' ('{' :: (k ++ ['}'])) = [k.length + 1] := by
      simp [idxs, hkc]
    simp only [replaceAllText, scanSpans]
    rw [idxs_append, idxs_append, hopen, hclose,
      List.singleton_append, List.singleton_append, List.zip_cons_cons,
      List.zip_map, prodMap_eq_shift, List.foldr_cons,
      foldr_stepSpan_shift m ('{' :: (k ++ ['}'])) _ (flattenSegs rest)]
    simp only [replaceAllText, scanSpans] at ih
    rw [ih]
    simp only [stepSpan]
    have e2 : k.length + 1 - 0 - 1 = k.length := by omega
    have e3 : ('{' :: (k ++ ['}'])) ++ flattenSegs (rest.map (resolveSeg m))
        = '{' :: ((k ++ (['}'] ++ flattenSegs (rest.map (resolveSeg m))))) := by
      simp
    rw [e2, e3]
    have e4 : (('{' :: (k ++ (['}'] ++ flattenSegs (rest.map (resolveSeg m)))))).drop (0 + 1)
        = k ++ (['}'] ++ flattenSegs (rest.map (resolveSeg m))) := rfl
    rw [e4, List.take_left]
    have e5 : k.length + 1 + 1 = k.length + 2 := by omega
    have e6 : ('{' :: (k ++ (['}'] ++ flattenSegs (rest.map (resolveSeg m))))).drop (k.length + 2)
        = flattenSegs (rest.map (resolveSeg m)) := by
      have h7 : ('{' :: (k ++ (['}'] ++ flattenSegs (rest.map (resolveSeg m)))))
          = ('{' :: (k ++ ['}'])) ++ flattenSegs (rest.map (resolveSeg m)) := by simp
      have h8 : k.length + 2 = ('{' :: (k ++ ['}'])).length := by simp
      rw [h7, h8, List.drop_left]
    rw [e5, e6]
    rw [List.map_cons, flattenSegs_cons]
    cases hmk : m k with
    | some v => simp [resolveSeg, resolveKey, hmk, flattenSeg]
    | none => simp [resolveSeg, resolveKey, hmk, flattenSeg]

/-! Non-occurrence of a replaced placeholder's delimited literal in the
rewritten text. -/

theorem braceFree_cons {c : Char} {s : List Char} (h : braceFree (c :: s)) :
    braceFree s ∧ c ≠ '{' ∧ c ≠ '}' := by
  refine ⟨⟨fun hm => h.1 (List.mem_cons_of_mem _ hm),
    fun hm => h.2 (List.mem_cons_of_mem _ hm)⟩, ?_, ?_⟩
  · exact fun hc => h.1 (by simp [hc])
  · exact fun hc => h.2 (by simp [hc])

theorem key_eq_of_append (u v : List Char) : ∀ k k2 : List Char, braceFree k → braceFree k2 →
    k ++ '}' :: u = k2 ++ '}' :: v → k = k2
  | [], [], _, _, _ => rfl
  | [], c2 :: k2, _, hk2, he => by
    rw [List.nil_append, List.cons_append] at he
    injection he with h1 _
    exact absurd (by rw [h1]; exact List.mem_cons_self _ _ : '}' ∈ c2 :: k2) hk2.2
  | c :: k, [], hk, _, he => by
    rw [List.nil_append, List.cons_append] at he
    injection he with h1 _
    exact absurd (by rw [← h1]; exact List.mem_cons_self _ _ : '}' ∈ c :: k) hk.2
  | c :: k, c2 :: k2, hk, hk2, he => by
    rw [List.cons_append, List.cons_append] at he
    injection he with h1 h2
    rw [h1, key_eq_of_append u v k k2 (braceFree_cons hk).1 (braceFree_cons hk2).1 h2]

theorem noLit_flatten (k : List Char) (hk : braceFree k) :
    ∀ rsegs : List Seg, (∀ sg ∈ rsegs, goodSeg k sg) →
    ¬ Occ ('{' :: (k ++ ['}'])) (flattenSegs rsegs)
  | [], _ => by
    rintro ⟨x, y, hxy⟩
    simp only [flattenSegs, List.map_nil, List.flatten_nil] at hxy
    exact absurd hxy.symm (by simp)
  | .plain s :: rest, hgood => by
    have hs : braceFree s := hgood _ (List.mem_cons_self _ _)
    have ihp := noLit_flatten k hk rest (fun sg hsg => hgood sg (List.mem_cons_of_mem _ hsg))
    rintro ⟨x, y, hxy⟩
    rw [flattenSegs_cons] at hxy
    have hxy2 : s ++ flattenSegs rest = x ++ (('{' :: (k ++ ['}'])) ++ y) := by
      simpa [List.append_assoc, flattenSeg] using hxy
    rcases List.append_eq_append_iff.1 hxy2 with ⟨u, _, hbu⟩ | ⟨w, haw, hdw⟩
    · exact ihp ⟨u, y, by rw [hbu, List.append_assoc]⟩
    · cases w with
      | nil => exact ihp ⟨[], y, by simpa using hdw.symm⟩
      | cons c vs =>
        rw [List.cons_append] at hdw
        injection hdw with h1 _
        exact hs.1 (by rw [haw, ← h1]; exact List.mem_append_right _ (List.mem_cons_self _ _))
  | .ph k2 :: rest, hgood => by
    obtain ⟨hk2, hne⟩ : braceFree k2 ∧ k2 ≠ k := hgood _ (List.mem_cons_self _ _)
    have ihp := noLit_flatten k hk rest (fun sg hsg => hgood sg (List.mem_cons_of_mem _ hsg))
    rintro ⟨x, y, hxy⟩
    rw [flattenSegs_cons] at hxy
    have hxy2 : ('{' :: (k2 ++ ['}'])) ++ flattenSegs rest
        = x ++ (('{' :: (k ++ ['}'])) ++ y) := by
      simpa [List.append_assoc, flattenSeg] using hxy
    rcases List.append_eq_append_iff.1 hxy2 with ⟨u, _, hbu⟩ | ⟨w, haw, hdw⟩
    · exact ihp ⟨u, y, by rw [hbu, List.append_assoc]⟩
    · cases w with
      | nil => exact ihp ⟨[], y, by simpa using hdw.symm⟩
      | cons c vs =>
        rw [List.cons_append] at hdw
        injection hdw with h1 h2
        cases x with
        | nil =>
          rw [List.nil_append] at haw
          injection haw with _ h4
          have hkk2 : k ++ '}' :: y = k2 ++ '}' :: flattenSegs rest := by
            have h5 : vs ++ flattenSegs rest = (k ++ ['}']) ++ y := h2.symm
            rw [← h4] at h5
            simpa [List.append_assoc] using h5.symm
          exact hne ((key_eq_of_append y (flattenSegs rest) k k2 hk hk2 hkk2).symm)
        | cons d xs =>
          rw [List.cons_append] at haw
          injection haw with _ h4
          have hc : c ∈ k2 ++ ['}'] := by
            rw [h4]
            exact List.mem_append_right _ (List.mem_cons_self _ _)
          rw [← h1] at hc
          rcases List.mem_append.1 hc with hc1 | hc1
          · exact hk2.1 hc1
          · simp at hc1

theorem goodSeg_of_resolve (m : PlaceholderMapM) (k v : List Char) (hm : m k = some v)
    (hvals : ∀ k2 v2, m k2 = some v2 → braceFree v2) :
    ∀ sg : Seg, wfSeg sg → goodSeg k (resolveSeg m sg)
  | .plain s, hw => hw
  | .ph k2, hw => by
    cases hmk2 : m k2 with
    | some v2 => simpa [resolveSeg, hmk2, goodSeg] using hvals k2 v2 hmk2
    | none =>
      have hne : k2 ≠ k := fun he => by rw [he, hm] at hmk2; cases hmk2
      simp only [resolveSeg, hmk2, goodSeg]
      exact ⟨hw, hne⟩

/-! Claim theorems for the plain replacement pipeline. -/

/-- C5: for every well-formed document and placeholder whose key is absent
from the replacement map, the plain replacement pipeline succeeds (the
missing key raises no error) and leaves that span's delimited literal in
the output verbatim, flanked by the resolutions of the surrounding
segments. -/
theorem c5_preserve_absent_key (a b : List Seg) (k : List Char) (m : PlaceholderMapM)
    (hwf : ∀ sg ∈ a ++ Seg.ph k :: b, wfSeg sg) (hm : m k = none) :
    ProcessBytesM ('P' :: 'K' :: flattenSegs (a ++ Seg.ph k :: b)) m
      = .ok ('P' :: 'K' :: (flattenSegs (a.map (resolveSeg m))
          ++ ('{' :: (k ++ ['}'])) ++ flattenSegs (b.map (resolveSeg m)))) := by
  have hopen : openBytes ('P' :: 'K' :: flattenSegs (a ++ Seg.ph k :: b))
      = .ok (flattenSegs (a ++ Seg.ph k :: b)) := by
    simp [openBytes]
  simp only [ProcessBytesM, hopen, writeBytes]
  rw [replaceAll_flatten m _ hwf, List.map_append, List.map_cons, flattenSegs_append,
    flattenSegs_cons]
  simp [resolveSeg, hm, flattenSeg, List.append_assoc]

/-- C5 witness: a concrete well-formed document with an absent key, on
which the pipeline returns ok with the span preserved verbatim. -/
theorem c5_preserve_witness :
    ProcessBytesM ('P' :: 'K' :: flattenSegs ([Seg.plain ['x']] ++ Seg.ph ['k'] :: []))
        (fun _ => none)
      = .ok ('P' :: 'K' :: (flattenSegs ([Seg.plain ['x']].map (resolveSeg (fun _ => none)))
          ++ ('{' :: (['k'] ++ ['}']))
          ++ flattenSegs (([] : List Seg).map (resolveSeg (fun _ => none))))) :=
  c5_preserve_absent_key [Seg.plain ['x']] [] ['k'] (fun _ => none) (by decide) rfl

/-- C4 counterexample: the Part text b, open brace, k, close brace, b with
the map sending k to b yields the Part text b, b, b - the replacement
value occurs three times in the output, not exactly once, refuting the
occurrence-count part of the claim as stated. -/
theorem c4_counterexample :
    ProcessBytesM ['P', 'K', 'b', '{', 'k', '}', 'b'] (singleMap ['k'] ['b'])
      = .ok ['P', 'K', 'b', 'b', 'b']
    ∧ countSub ['b'] ['b', 'b', 'b'] ≠ 1 := by decide

/-- C4 amended: for every well-formed document decomposing into
delimiter-free segments around a placeholder with key k present in the
map, with all map values delimiter-free, the pipeline succeeds, the output
Part text carries the replacement value exactly at the original span's
position, and the original delimited literal of k occurs nowhere in the
output Part text (the exactly-once occurrence count of the claim does not
hold in general, per the counterexample). -/
theorem c4_replacement_positional (a b : List Seg) (k v : List Char) (m : PlaceholderMapM)
    (hwf : ∀ sg ∈ a ++ Seg.ph k :: b, wfSeg sg) (hm : m k = some v)
    (hvals : ∀ k2 v2, m k2 = some v2 → braceFree v2) :
    ProcessBytesM ('P' :: 'K' :: flattenSegs (a ++ Seg.ph k :: b)) m
      = .ok ('P' :: 'K' :: (flattenSegs (a.map (resolveSeg m))
          ++ v ++ flattenSegs (b.map (resolveSeg m))))
    ∧ ¬ Occ ('{' :: (k ++ ['}']))
        (flattenSegs (a.map (resolveSeg m)) ++ v ++ flattenSegs (b.map (resolveSeg m))) := by
  have hk : braceFree k := by
    have := hwf (Seg.ph k) (List.mem_append_right _ (List.mem_cons_self _ _))
    exact this
  constructor
  · have hopen : openBytes ('P' :: 'K' :: flattenSegs (a ++ Seg.ph k :: b))
        = .ok (flattenSegs (a ++ Seg.ph k :: b)) := by
      simp [openBytes]
    simp only [ProcessBytesM, hopen, writeBytes]
    rw [replaceAll_flatten m _ hwf, List.map_append, List.map_cons, flattenSegs_append,
      flattenSegs_cons]
    simp [resolveSeg, hm, flattenSeg, List.append_assoc]
  · have hdecomp : flattenSegs (a.map (resolveSeg m)) ++ v ++ flattenSegs (b.map (resolveSeg m))
        = flattenSegs (a.map (resolveSeg m) ++ Seg.plain v :: b.map (resolveSeg m)) := by
      rw [flattenSegs_append, flattenSegs_cons]
      simp [flattenSeg, List.append_assoc]
    rw [hdecomp]
    apply noLit_flatten k hk
    intro sg hsg
    rcases List.mem_append.1 hsg with hin | hin
    · obtain ⟨sg0, hsg0, rfl⟩ := List.mem_map.1 hin
      exact goodSeg_of_resolve m k v hm hvals sg0 (hwf sg0 (List.mem_append_left _ hsg0))
    · rcases List.mem_cons.1 hin with rfl | hin2
      · exact hvals k v hm
      · obtain ⟨sg0, hsg0, rfl⟩ := List.mem_map.1 hin2
        exact goodSeg_of_resolve m k v hm hvals sg0
          (hwf sg0 (List.mem_append_right _ (List.mem_cons_of_mem _ hsg0)))

/-- C4 witness: a concrete well-formed document and single-entry map on
which the amended theorem's hypotheses hold and its conclusions evaluate. -/
theorem c4_replacement_witness :
    ProcessBytesM ('P' :: 'K' :: flattenSegs ([Seg.plain ['x']] ++ Seg.ph ['k'] :: []))
        (singleMap ['k'] ['v'])
      = .ok ('P' :: 'K' :: (flattenSegs ([Seg.plain ['x']].map (resolveSeg (singleMap ['k'] ['v'])))
          ++ ['v'] ++ flattenSegs (([] : List Seg).map (resolveSeg (singleMap ['k'] ['v'])))))
    ∧ ¬ Occ ('{' :: (['k'] ++ ['}']))
        (flattenSegs ([Seg.plain ['x']].map (resolveSeg (singleMap ['k'] ['v'])))
          ++ ['v'] ++ flattenSegs (([] : List Seg).map (resolveSeg (singleMap ['k'] ['v'])))) := by
  refine c4_replacement_positional [Seg.plain ['x']] [] ['k'] ['v'] (singleMap ['k'] ['v'])
    (by decide) (by decide) ?_
  intro k2 v2 h
  unfold singleMap at h
  by_cases hk2 : k2 = ['k']
  · rw [if_pos hk2] at h
    injection h with hv2
    rw [← hv2]
    decide
  · rw [if_neg hk2] at h
    cases h

/-! Claim theorems for the template APIs. -/

/-- C3 counterexample: the standalone text API does not return the raw
rendered text on the scenario input - its result differs from the plain
Hello World string. -/
theorem c3_counterexample :
    ProcessTemplateM helloTemplateText worldCtx ≠ .ok helloWorldText := by decide

/-- C3 amended: on the scenario input the standalone text API returns the
rendered text wrapped in the fixed RTF envelope - header, rendered text,
closing group - rather than the raw evaluator output. -/
theorem c3_rtf_wrapped :
    ProcessTemplateM helloTemplateText worldCtx
      = .ok (rtfHeader ++ helloWorldText ++ ['}']) := by decide

/-- C1: evaluation of the code at the failing input of the repository's
own test of executeTemplatePlaceholder with missing data - the function
succeeds with the missing-value sentinel embedded in its output instead of
preserving the original placeholder text, and the document pipeline writes
that sentinel text into the document. -/
theorem c1_code_bug_eval :
    executeTemplatePlaceholderM missingFieldTemplate missingFieldCtx
      = .ok missingFieldActual
    ∧ missingFieldActual ≠ missingFieldTemplate
    ∧ containsSub missingFieldActual noValueMarker = true
    ∧ ProcessTemplateDocxM ('P' :: 'K' :: missingFieldTemplate) missingFieldCtx
      = .ok ('P' :: 'K' :: missingFieldActual) := by decide

/-- C6: whenever the template-to-document API succeeds, its output is
exactly the plain replacement of the single target key by the standalone
rendering of the template - the composition of the two smaller APIs. -/
theorem c6_compose (input key templateText : List Char) (ctx : Ctx) (out : List Char)
    (hok : ProcessTemplateBytesM input key templateText ctx = .ok out) :
    (ProcessTemplateM templateText ctx).bind
      (fun rtf => ProcessBytesM input (singleMap key rtf)) = .ok out := by
  unfold ProcessTemplateBytesM at hok
  split at hok
  · exact absurd hok (by simp)
  · split at hok
    · exact absurd hok (by simp)
    · cases heq : ProcessTemplateM templateText ctx with
      | error e =>
        rw [heq] at hok
        exact absurd hok (by simp)
      | ok rtf =>
        rw [heq] at hok
        simpa [Except.bind] using hok

/-- C6 witness: a concrete successful run of the template-to-document API,
matched by the composed rendering-then-replacement pipeline. -/
theorem c6_compose_witness :
    (ProcessTemplateM ['h', 'i'] (fun _ => none)).bind
      (fun rtf => ProcessBytesM ['P', 'K', 'a'] (singleMap ['k'] rtf))
      = .ok ['P', 'K', 'a'] :=
  c6_compose ['P', 'K', 'a'] ['k'] ['h', 'i'] (fun _ => none) ['P', 'K', 'a'] (by decide)

/-- C8: the template-to-document API rejects empty input bytes with the
empty-input error independently of context and template (no rendering or
document work), rejects an empty placeholder key or empty template text
with an error and no output, and the template-native document API rejects
empty input bytes with the empty-input error. -/
theorem c8_config_errors (input key templateText : List Char) (ctx : Ctx) :
    (input = [] → ProcessTemplateBytesM input key templateText ctx = .error .emptyInput)
    ∧ ((key = [] ∨ templateText = []) →
        isOkE (ProcessTemplateBytesM input key templateText ctx) = false)
    ∧ (input = [] → ProcessTemplateDocxM input ctx = .error .emptyInput) := by
  refine ⟨?_, ?_, ?_⟩
  · rintro rfl
    simp [ProcessTemplateBytesM]
  · intro hor
    by_cases hin : input = []
    · simp [ProcessTemplateBytesM, hin, isOkE]
    · have hkt : (key = [] || templateText = []) = true := by
        rcases hor with h | h <;> simp [h]
      simp [ProcessTemplateBytesM, hin, hkt, isOkE]
  · rintro rfl
    simp [ProcessTemplateDocxM]

/-- C8 witness: the three rejection branches at concrete inputs. -/
theorem c8_config_errors_witness :
    ProcessTemplateBytesM [] ['k'] ['t'] (fun _ => none) = .error .emptyInput
    ∧ isOkE (ProcessTemplateBytesM ['P', 'K'] [] ['t'] (fun _ => none)) = false
    ∧ ProcessTemplateDocxM [] (fun _ => none) = .error .emptyInput :=
  ⟨(c8_config_errors [] ['k'] ['t'] (fun _ => none)).1 rfl,
   (c8_config_errors ['P', 'K'] [] ['t'] (fun _ => none)).2.1 (Or.inl rfl),
   (c8_config_errors [] ['k'] ['t'] (fun _ => none)).2.2 rfl⟩

theorem buildReps_error (ctx : Ctx) (ph : List Char) (e : DocxErr)
    (herr : executeTemplatePlaceholderM ph ctx = .error e) :
    ∀ l : List (List Char), ph ∈ l → isOkE (buildReps ctx l) = false
  | [], h => absurd h (List.not_mem_nil _)
  | p :: ps, h => by
    rcases List.mem_cons.1 h with rfl | hmem
    · simp [buildReps, herr, isOkE]
    · cases hex : executeTemplatePlaceholderM p ctx with
      | error e2 => simp [buildReps, hex, isOkE]
      | ok v =>
        have ih := buildReps_error ctx ph e herr ps hmem
        cases hbr : buildReps ctx ps with
        | error e2 => simp [buildReps, hex, hbr, isOkE]
        | ok r =>
          rw [hbr] at ih
          simp [isOkE] at ih

/-- C9: if the parse or execution of any single discovered template
placeholder errors, the whole template-native document call returns an
error and no output bytes - the failure is fatal and atomic rather than
being resolved by preserving that one placeholder and continuing. -/
theorem c9_fatal_error (text : List Char) (ctx : Ctx) (ph : List Char) (e : DocxErr)
    (hmem : ph ∈ (getPlaceHoldersListM text).filter isTemplatePlaceholder)
    (herr : executeTemplatePlaceholderM ph ctx = .error e) :
    isOkE (ProcessTemplateDocxM ('P' :: 'K' :: text) ctx) = false := by
  have hne : ('P' :: 'K' :: text) ≠ [] := by simp
  have hopen : openBytes ('P' :: 'K' :: text) = .ok text := by simp [openBytes]
  simp only [ProcessTemplateDocxM, if_neg hne, hopen]
  cases hbr : buildReps ctx ((getPlaceHoldersListM text).filter isTemplatePlaceholder) with
  | error e2 => simp [isOkE]
  | ok r =>
    have hlem := buildReps_error ctx ph e herr _ hmem
    rw [hbr] at hlem
    simp [isOkE] at hlem

/-- C9 witness: a concrete document holding one malformed template
placeholder, on which the whole call errors. -/
theorem c9_fatal_error_witness :
    isOkE (ProcessTemplateDocxM ('P' :: 'K' :: ['{', '{', 'g', '}', '}']) (fun _ => none))
      = false :=
  c9_fatal_error ['{', '{', 'g', '}', '}'] (fun _ => none) ['{', '{', 'g', '}', '}']
    .templateParseFailed (by decide) (by decide)

end GoDocx
